import Mathlib

/-!
# Verification of the `lieutenant` command dispatch engine

Shallow embedding of the repository's three source files
(`src/dispatcher.rs`, `src/command/or.rs`, `src/command/exec.rs`)
together with spec-modelled definitions for the parts of the crate that
are referenced but whose source is not available (`Input`, the
`ArgumentChecker` capability, the `Command`/`CommandNode` builder output).
-/

namespace Lieutenant

/-! ## Input cursor (spec-modelled) -/

/-- Modelled from the spec: the `Input` cursor type is not among the
available source files.  §4.1 describes it as a cheaply-cloneable view
over the remaining unconsumed text.  We represent the remaining text as a
list of characters. -/
def Input : Type := List Char

instance : DecidableEq Input := inferInstanceAs (DecidableEq (List Char))

/-- Modelled from the spec: `Input::new` wraps the full command text. -/
def Input.new (s : String) : Input := s.data

/-- Modelled from the spec: `empty()` reports whether any non-consumed
content remains. -/
def Input.empty (i : Input) : Bool := List.isEmpty i

/-- Modelled from the spec: `head(separator)` returns the next token up to
(not including) the next occurrence of the separator.  The cursor advances
past the token and the separator itself, as required for the dispatch loop
to make progress through literal nodes (spec §4.5 and the end-to-end
example of §8).  The source only ever calls it with the one-character
separator `" "`, so the separator is modelled as a single character.
Returns the token together with the advanced cursor. -/
def Input.head (i : Input) (sep : Char) : List Char × Input :=
  (i.takeWhile (fun c => c ≠ sep), (i.dropWhile (fun c => c ≠ sep)).drop 1)

/-! ## Parser combinator algebra (`or.rs`, `exec.rs`)

`ParserBase::parse(&self, input: &mut Input) -> Option<Extract>` is
modelled as a function from a cursor to a result paired with the cursor
state the call leaves behind (the mutation of the `&mut Input` argument,
visible to the caller whether the parse succeeded or failed). -/

/-- A parser in the sense of `ParserBase`: result plus final cursor state. -/
def ParserFn (α : Type) : Type := Input → Option α × Input

/-- The two-variant sum type carried by `Or` results. -/
inductive Either (α β : Type) : Type where
  | A (a : α)
  | B (b : β)
deriving DecidableEq, Repr

/-- `Or<T, U>` from `or.rs`: the two sub-parsers. -/
structure Or (α β : Type) : Type where
  first : ParserFn α
  second : ParserFn β

/-- `Or::parse` (or.rs lines 16–22): runs `first` against a clone of the
cursor (whose final state is discarded); on success yields `Either::A`
with the caller's cursor untouched; otherwise runs `second` against the
original cursor, whose mutation is visible to the caller. -/
def Or.parse (o : Or α β) (input : Input) : Option (Either α β) × Input :=
  match (o.first input).fst with
  | some v => (some (Either.A v), input)
  | none =>
    match o.second input with
    | (some w, input') => (some (Either.B w), input')
    | (none, input') => (none, input')

/-- `Command` from `exec.rs`: extracted arguments paired with the handler.
The handler `fn(&'a mut C, P::Extract)` is modelled as a state-passing
function on the context. -/
structure Command (E C : Type) : Type where
  extracted : E
  command : C → E → C

/-- `Command::call` (exec.rs lines 40–43): invokes the handler with the
owned extracted value. -/
def Command.call (c : Command E C) (ctx : C) : C :=
  c.command ctx c.extracted

/-- `Exec<P, C>` from `exec.rs`: inner parser plus handler. -/
structure Exec (E C : Type) : Type where
  parser : ParserFn E
  command : C → E → C

/-- `Exec::parse` (exec.rs lines 17–27): runs the inner parser; on inner
failure, fails (the inner parser's cursor mutation persists, as through
the `?` operator); on inner success, succeeds iff the cursor is then
empty, pairing the extracted value with the handler. -/
def Exec.parse (e : Exec E C) (input : Input) : Option (Command E C) × Input :=
  match e.parser input with
  | (none, input') => (none, input')
  | (some ex, input') =>
    if List.isEmpty input' then
      (some ⟨ex, e.command⟩, input')
    else
      (none, input')

/-! ## Registration surface (spec-modelled builder output) -/

/-- Modelled from the spec: the `ArgumentChecker` capability (§6) —
`satisfies(context, cursor)` reports a boolean and may advance the
cursor, and checkers support dynamic equality (`equals`).  Dynamic
equality is modelled by a numeric identity tag. -/
structure ArgumentChecker (C : Type) : Type where
  id : Nat
  satisfies : C → Input → Bool × Input

/-- `CommandNodeKind`: the two kinds a declared command-tree node can
have (dispatcher.rs lines 183–194 convert exactly these two variants). -/
inductive CommandNodeKind (C : Type) : Type where
  | Literal (lit : String)
  | Parser (checker : ArgumentChecker C)

mutual
/-- Modelled from the spec: the command graph entity (§3) handed to
`register` — a tree of kind, optional handler and children.  Handlers
`(Context, raw-input) -> ()` are modelled as state-passing functions. -/
inductive CommandNode (C : Type) : Type where
  | mk (kind : CommandNodeKind C) (exec : Option (C → String → C))
       (next : CommandNodeList C)

/-- Children of a `CommandNode`, as a purpose-built list so that the
mutual recursion of `append_node` is structural. -/
inductive CommandNodeList (C : Type) : Type where
  | nil
  | cons (hd : CommandNode C) (tl : CommandNodeList C)
end

/-- Modelled from the spec: `CommandMeta` is opaque metadata captured per
registered command (§3), irrelevant to dispatch. -/
structure CommandMeta : Type where
  name : String
deriving DecidableEq, Repr

/-- Modelled from the spec: the `Command` trait input to `register` — a
metadata value plus the node tree produced by `into_root_node`. -/
structure CommandDecl (C : Type) : Type where
  meta : CommandMeta
  rootNode : CommandNode C

/-! ## The dispatcher arena (`dispatcher.rs`) -/

/-- `RegisterError` (dispatcher.rs lines 6–13). -/
inductive RegisterError : Type where
  | OverlappingCommands
  | ExecutableRoot
deriving DecidableEq, Repr

/-- `NodeKind` (dispatcher.rs lines 196–200). -/
inductive NodeKind (C : Type) : Type where
  | Literal (lit : String)
  | Parser (checker : ArgumentChecker C)
  | Root

/-- `Node` (dispatcher.rs lines 166–171). -/
structure Node (C : Type) : Type where
  next : List Nat
  kind : NodeKind C
  exec : Option (C → String → C)

/-- `Node::default()`: the fresh `Root` node. -/
def Node.root (C : Type) : Node C := ⟨[], NodeKind.Root, none⟩

/-- `From<CommandNodeKind<C>> for Node<C>` (dispatcher.rs lines 183–194). -/
def Node.ofKind (k : CommandNodeKind C) : Node C :=
  match k with
  | CommandNodeKind.Literal lit => ⟨[], NodeKind.Literal lit, none⟩
  | CommandNodeKind.Parser p => ⟨[], NodeKind.Parser p, none⟩

/-- `PartialEq<CommandNodeKind<C>> for NodeKind<C>` (dispatcher.rs lines
202–213): literal text equality, checker dynamic equality, `Root` equal
to nothing. -/
def kindMatches : NodeKind C → CommandNodeKind C → Bool
  | NodeKind.Literal a, CommandNodeKind.Literal b => a == b
  | NodeKind.Parser p, CommandNodeKind.Parser q => p.id == q.id
  | _, _ => false

/-- `CommandDispatcher` (dispatcher.rs lines 18–23).  The slab is
append-only for the dispatcher's lifetime, so it is modelled as a list
indexed by insertion order. -/
structure CommandDispatcher (C : Type) : Type where
  nodes : List (Node C)
  root : Nat
  metas : List CommandMeta

namespace CommandDispatcher

/-- `CommandDispatcher::new` (dispatcher.rs lines 33–39). -/
def new (C : Type) : CommandDispatcher C :=
  ⟨[Node.root C], 0, []⟩

/-- Arena indexing `self.nodes[key]`; out-of-range access (a panic in the
source) falls back to a default node, and is proved unreachable for
well-formed dispatchers. -/
def nodeAt (d : CommandDispatcher C) (k : Nat) : Node C :=
  d.nodes.getD k (Node.root C)

/-- Overwrite the handler slot of node `k`. -/
def setExec (d : CommandDispatcher C) (k : Nat) (h : C → String → C) :
    CommandDispatcher C :=
  { d with nodes := d.nodes.set k { d.nodeAt k with exec := some h } }

/-- Append a child key to node `k`'s child list. -/
def pushChild (d : CommandDispatcher C) (k : Nat) (child : Nat) :
    CommandDispatcher C :=
  { d with nodes := d.nodes.set k { d.nodeAt k with next := (d.nodeAt k).next ++ [child] } }

/-- `Slab::insert`: append a node, returning its key (no key is ever
freed, so keys are consecutive). -/
def pushNode (d : CommandDispatcher C) (n : Node C) :
    CommandDispatcher C × Nat :=
  ({ d with nodes := d.nodes ++ [n] }, d.nodes.length)

/-- The handler-attachment step of `append_node` (dispatcher.rs lines
121–132): a tree node carrying a handler attaches it to the arena node it
is being merged under; attaching to the `Root` node or to a node whose
handler slot is already occupied is an error. -/
def attachExec (d : CommandDispatcher C) (cur : Nat) :
    Option (C → String → C) → CommandDispatcher C × Option RegisterError
  | none => (d, none)
  | some h =>
    match (d.nodeAt cur).kind with
    | NodeKind.Root => (d, some RegisterError.ExecutableRoot)
    | _ =>
      match (d.nodeAt cur).exec with
      | some _ => (d, some RegisterError.OverlappingCommands)
      | none => (d.setExec cur h, none)

mutual

/-- `CommandDispatcher::append_node` (dispatcher.rs lines 113–163),
merging one declared tree node under arena node `cur`:
handler attachment first (rejecting an executable root and an already
occupied handler slot), then find-or-create the child whose kind equals
the tree node's kind, then merge the sub-trees under that child,
stopping at the first error.  Errors leave the mutations made so far in
place (no rollback), so the partially mutated dispatcher is returned
alongside the error.

The handler-attachment step is split out as `attachExec` below. -/
def append_node (d : CommandDispatcher C) (cur : Nat) :
    CommandNode C → CommandDispatcher C × Option RegisterError
  | CommandNode.mk kind exec? children =>
    match attachExec d cur exec? with
    | (d', some e) => (d', some e)
    | (d', none) =>
      match (d'.nodeAt cur).next.find? (fun j => kindMatches (d'.nodeAt j).kind kind) with
      | some found => append_children d' found children
      | none =>
        let (d'', newKey) := d'.pushNode (Node.ofKind kind)
        append_children (d''.pushChild cur newKey) newKey children

/-- The `collect::<Result<(), _>>()` over the sub-trees in `append_node`:
merge children in order, short-circuiting at the first error. -/
def append_children (d : CommandDispatcher C) (cur : Nat) :
    CommandNodeList C → CommandDispatcher C × Option RegisterError
  | CommandNodeList.nil => (d, none)
  | CommandNodeList.cons t rest =>
    match append_node d cur t with
    | (d', some e) => (d', some e)
    | (d', none) => append_children d' cur rest

end

/-- `CommandDispatcher::register` (dispatcher.rs lines 42–48): pushes the
command's metadata, then merges its node tree under the root. -/
def register (d : CommandDispatcher C) (c : CommandDecl C) :
    CommandDispatcher C × Option RegisterError :=
  append_node { d with metas := d.metas ++ [c.meta] } d.root c.rootNode

/-- `CommandDispatcher::command_meta` (dispatcher.rs lines 109–111): the
registered metadata, in order. -/
def command_meta (d : CommandDispatcher C) : List CommandMeta :=
  d.metas

/-! ## Dispatch (`dispatcher.rs` lines 66–107) -/

/-- One candidate test from the dispatch loop's `filter_map` closure: the
child's kind against a clone of the cursor.  A `Literal` child matches
iff its text equals `input.head(" ")` (the clone then advanced past the
token); a `Parser` child matches iff its checker's `satisfies` returns
true (the clone advanced however the checker left it).  A `Root` kind
among children is `unreachable!()` in the source and never matches.
Returns the committed cursor on a match. -/
def tryChild (d : CommandDispatcher C) (ctx : C) (input : Input) (j : Nat) :
    Option Input :=
  match (d.nodeAt j).kind with
  | NodeKind.Literal lit =>
    let (tok, rest) := input.head ' '
    if lit.data == tok then some rest else none
  | NodeKind.Parser p =>
    let (ok, input') := p.satisfies ctx input
    if ok then some input' else none
  | NodeKind.Root => none

/-- The `.filter_map(...).next()` over a node's children: the first child,
in insertion order, whose kind is satisfied by the remaining input. -/
def findFirst (d : CommandDispatcher C) (ctx : C) (input : Input) :
    List Nat → Option (Nat × Input)
  | [] => none
  | j :: rest =>
    match tryChild d ctx input j with
    | some input' => some (j, input')
    | none => findFirst d ctx input rest

/-- Outcome of the dispatch loop: the node reached when the cursor became
empty, failure because no child matched, or exhaustion of the step budget
(which corresponds to non-termination of the source's `while` loop and is
proved unreachable for well-formed dispatchers). -/
inductive LoopResult : Type where
  | finished (node : Nat)
  | noMatch
  | fuelOut
deriving DecidableEq, Repr

/-- The `while !input.empty()` loop of `dispatch`, with an explicit step
budget standing in for the source's unbounded loop. -/
def dispatchLoop (d : CommandDispatcher C) (ctx : C) :
    Nat → Nat → Input → LoopResult
  | 0, _, _ => LoopResult.fuelOut
  | fuel + 1, cur, input =>
    if List.isEmpty input then
      LoopResult.finished cur
    else
      match findFirst d ctx input (d.nodeAt cur).next with
      | some (next, input') => dispatchLoop d ctx fuel next input'
      | none => LoopResult.noMatch

/-- `CommandDispatcher::dispatch` (dispatcher.rs lines 66–107): walk from
the root consuming the cursor; when the cursor is empty, invoke the
current node's handler — with the original full command text — if
present.  Returns the (possibly handler-mutated) context and whether a
handler ran.  The step budget `d.nodes.length` is sufficient for every
well-formed dispatcher (see `dispatchLoop_no_fuelOut`). -/
def dispatch (d : CommandDispatcher C) (ctx : C) (command : String) :
    C × Bool :=
  match dispatchLoop d ctx d.nodes.length d.root (Input.new command) with
  | LoopResult.finished node =>
    match (d.nodeAt node).exec with
    | some h => (h ctx command, true)
    | none => (ctx, false)
  | _ => (ctx, false)

end CommandDispatcher

/-! ## Reference dispatch algorithm, written from the spec's words

Used solely to compare against the source-derived `dispatch` (claim C1). -/

namespace SpecAlg

open CommandDispatcher

/-- Whether a child's kind is satisfied by the remaining input, following
the spec's words: a `Literal` child matches iff its text equals
`cursor.head(" ")`; a `Parser` child matches iff its checker reports the
(context, cloned-cursor) pair satisfiable, which may advance the clone.
Yields the candidate's produced cursor state. -/
def satisfiedBy (d : CommandDispatcher C) (ctx : C) (input : Input) (child : Nat) :
    Option Input :=
  match (d.nodeAt child).kind with
  | NodeKind.Literal text =>
    if text.data = (input.head ' ').1 then some (input.head ' ').2 else none
  | NodeKind.Parser checker =>
    if (checker.satisfies ctx input).1 = true then some (checker.satisfies ctx input).2
    else none
  | NodeKind.Root => none

/-- The spec's matching loop: while the cursor is non-empty, select the
first child, in insertion order, whose kind is satisfied by the remaining
input and commit that candidate's cursor state; fail if no child matches. -/
def loop (d : CommandDispatcher C) (ctx : C) :
    Nat → Nat → Input → LoopResult
  | 0, _, _ => LoopResult.fuelOut
  | fuel + 1, cur, input =>
    if List.isEmpty input then
      LoopResult.finished cur
    else
      match (d.nodeAt cur).next.findSome?
          (fun child => (satisfiedBy d ctx input child).map (fun st => (child, st))) with
      | some (child, st) => loop d ctx fuel child st
      | none => LoopResult.noMatch

/-- The reference dispatch of claim C1: start at `Root` with a fresh
cursor; when the cursor is empty, invoke the current node's handler with
the context and the original full command text and return true if one is
present, false otherwise. -/
def dispatchSpec (d : CommandDispatcher C) (ctx : C) (command : String) :
    C × Bool :=
  match loop d ctx d.nodes.length d.root (Input.new command) with
  | LoopResult.finished node =>
    match (d.nodeAt node).exec with
    | some handler => (handler ctx command, true)
    | none => (ctx, false)
  | _ => (ctx, false)

end SpecAlg

/-! ## Concrete commands used by the scenario claims

Modelled from the spec: the fluent builder producing `into_root_node`
trees is an external collaborator (§2).  A command whose grammar is the
token chain `k1 … kn` with handler `h` is declared as the chain of nodes
for `k1 … kn` ending in a terminal child that carries the handler; the
handler of a tree node attaches to the arena node the node is merged
under (§4.4 step 1), so the terminal child's handler lands on the arena
node for `kn`, and a handler on the tree's own root denotes a command
consuming zero tokens. -/

/-- Conversion from ordinary lists for building command trees. -/
def CommandNodeList.ofList : List (CommandNode C) → CommandNodeList C
  | [] => CommandNodeList.nil
  | t :: ts => CommandNodeList.cons t (CommandNodeList.ofList ts)

/-- A literal node of a declared command tree, with no handler. -/
def litNode (text : String) (children : List (CommandNode C)) : CommandNode C :=
  CommandNode.mk (CommandNodeKind.Literal text) none (CommandNodeList.ofList children)

/-- A parser node of a declared command tree, with no handler. -/
def chkNode (checker : ArgumentChecker C) (children : List (CommandNode C)) :
    CommandNode C :=
  CommandNode.mk (CommandNodeKind.Parser checker) none (CommandNodeList.ofList children)

/-- The terminal carrier of a command's handler: merged under the last
grammar node, it attaches the handler there. -/
def execNode (h : C → String → C) : CommandNode C :=
  CommandNode.mk (CommandNodeKind.Literal "") (some h) CommandNodeList.nil

/-- Modelled from the spec: a single-token argument checker (the concrete
`ArgumentChecker` implementations are external collaborators, §2); it
consumes one whitespace-delimited token and is satisfied iff the token is
non-empty. -/
def singleTokenChecker (C : Type) (n : Nat) : ArgumentChecker C :=
  ⟨n, fun _ input =>
    let (tok, rest) := input.head ' '
    (!List.isEmpty tok, rest)⟩

/-- Context for the scenario claims: a log of handler invocations, each
recorded with its extracted arguments. -/
abbrev Log : Type := List (List String)

/-- Split a character list at spaces. -/
def splitTokens : List Char → List Char → List (List Char)
  | [], acc => [acc.reverse]
  | c :: cs, acc =>
    if c = ' ' then acc.reverse :: splitTokens cs [] else splitTokens cs (c :: acc)

/-- The whitespace-delimited tokens of a string. -/
def tokens (s : String) : List String :=
  (splitTokens s.data []).map (fun cs => String.mk cs)

/-- Handler of `"tp <player> <destination>"`: records the two extracted
tokens (re-parsed from the full command text, as the type-erased closure
produced at the `Exec` boundary does). -/
def tpArgsHandler : Log → String → Log :=
  fun log full => log ++ [["tp-args"] ++ (tokens full).drop 1]

/-- Handler of `"tp here"`. -/
def tpHereHandler : Log → String → Log :=
  fun log _ => log ++ [["tp-here"]]

/-- The declared command `"tp <player> <destination>"`. -/
def tpArgsCmd : CommandDecl Log :=
  ⟨⟨"tp-args"⟩,
   litNode "tp"
     [chkNode (singleTokenChecker Log 1)
       [chkNode (singleTokenChecker Log 2)
         [execNode tpArgsHandler]]]⟩

/-- The declared command `"tp here"`. -/
def tpHereCmd : CommandDecl Log :=
  ⟨⟨"tp-here"⟩, litNode "tp" [litNode "here" [execNode tpHereHandler]]⟩

/-- A single-literal executable command `"foo"`, with a handler recording
the given tag. -/
def fooCmd (tag : String) : CommandDecl Log :=
  ⟨⟨tag⟩, litNode "foo" [execNode (fun log _ => log ++ [[tag]])]⟩

/-- Structural equality on arena node kinds, the symmetric counterpart of
the source's `PartialEq<CommandNodeKind>` used between siblings. -/
def kindEqb : NodeKind C → NodeKind C → Bool
  | NodeKind.Literal a, NodeKind.Literal b => a == b
  | NodeKind.Parser p, NodeKind.Parser q => p.id == q.id
  | NodeKind.Root, NodeKind.Root => true
  | _, _ => false

namespace CommandDispatcher

variable {C : Type}

/-- The invariant maintained by every reachable dispatcher state: the
entry point is the single `Root`-kind node at key 0, it carries no
handler, child keys always exceed their parent's key and stay in bounds
(so the arena is acyclic), siblings have pairwise distinct kinds, every
node has at most one parent, and every non-root node has a parent —
together: the arena is a tree rooted at `Root`. -/
structure WF (d : CommandDispatcher C) : Prop where
  rootKey : d.root = 0
  nodesNonempty : 0 < d.nodes.length
  rootKind : (d.nodeAt 0).kind = NodeKind.Root
  rootExec : (d.nodeAt 0).exec = none
  kindNotRoot : ∀ i, 0 < i → i < d.nodes.length → (d.nodeAt i).kind ≠ NodeKind.Root
  childBounds : ∀ i, ∀ j ∈ (d.nodeAt i).next, i < j ∧ j < d.nodes.length
  sibKinds : ∀ i, (d.nodeAt i).next.Pairwise
    (fun a b => kindEqb (d.nodeAt a).kind (d.nodeAt b).kind = false)
  oneParent : ∀ i₁ i₂ j, j ∈ (d.nodeAt i₁).next → j ∈ (d.nodeAt i₂).next → i₁ = i₂
  hasParent : ∀ j, 0 < j → j < d.nodes.length → ∃ i, i < d.nodes.length ∧ j ∈ (d.nodeAt i).next

/-- Dispatcher states reachable from `new` by a sequence of `register`
calls (successful or failed). -/
inductive Reachable (C : Type) : CommandDispatcher C → Prop where
  | base : Reachable C (new C)
  | step (d : CommandDispatcher C) (c : CommandDecl C) :
      Reachable C d → Reachable C (register d c).1

/-- Registering a whole list of commands in order. -/
def registerAll (d : CommandDispatcher C) : List (CommandDecl C) → CommandDispatcher C
  | [] => d
  | c :: cs => registerAll (register d c).1 cs

end CommandDispatcher

/-! ## Further concrete scenario material -/

/-- Number of arena nodes whose kind is the given literal. -/
def countLiteral (d : CommandDispatcher C) (s : String) : Nat :=
  (d.nodes.filter (fun n =>
    match n.kind with
    | NodeKind.Literal t => t == s
    | _ => false)).length

/-- Register `"foo"` as an executable command once. -/
def fooOnceReg : CommandDispatcher Log × Option RegisterError :=
  CommandDispatcher.register (CommandDispatcher.new Log) (fooCmd "foo1")

/-- Register `"foo"` as an executable command twice (overlap scenario). -/
def fooTwiceReg : CommandDispatcher Log × Option RegisterError :=
  CommandDispatcher.register fooOnceReg.1 (fooCmd "foo2")

/-- The declared command `"foo bar"`. -/
def fooBarCmd : CommandDecl Log :=
  ⟨⟨"foo-bar"⟩, litNode "foo" [litNode "bar" [execNode (fun log _ => log ++ [["foo-bar"]])]]⟩

/-- The declared command `"foo baz"`. -/
def fooBazCmd : CommandDecl Log :=
  ⟨⟨"foo-baz"⟩, litNode "foo" [litNode "baz" [execNode (fun log _ => log ++ [["foo-baz"]])]]⟩

/-- `"foo bar"` and `"foo baz"` registered in order (prefix-sharing
scenario). -/
def fooTreeReg : CommandDispatcher Log × Option RegisterError :=
  CommandDispatcher.register
    (CommandDispatcher.register (CommandDispatcher.new Log) fooBarCmd).1 fooBazCmd

/-- A command consuming zero tokens: its tree root carries the handler. -/
def zeroTokenCmd : CommandDecl Log :=
  ⟨⟨"zero"⟩, execNode (fun log _ => log ++ [["zero"]])⟩

/-- `"tp <player> <destination>"` and then `"tp here"` registered in the
order of the end-to-end example. -/
def tpClaimReg : CommandDispatcher Log × Option RegisterError :=
  CommandDispatcher.register
    (CommandDispatcher.register (CommandDispatcher.new Log) tpArgsCmd).1 tpHereCmd

/-- A parser that extracts a constant and consumes the whole cursor. -/
def constParser (n : Nat) : ParserFn Nat := fun _ => (some n, [])

/-- A parser that always fails, leaving the cursor unchanged. -/
def failParser : ParserFn Nat := fun i => (none, i)

/-- A parser that extracts a constant and consumes one character. -/
def dropParser (n : Nat) : ParserFn Nat := fun i => (some n, i.drop 1)

/-! ## Frame lemmas for the arena mutations -/

namespace CommandDispatcher

variable {C : Type}

theorem nodeAt_eq_getD (d : CommandDispatcher C) (k : Nat) :
    d.nodeAt k = (d.nodes[k]?).getD (Node.root C) :=
  List.getD_eq_getElem?_getD _ _ _

theorem nodeAt_of_length_le (d : CommandDispatcher C) (k : Nat)
    (h : d.nodes.length ≤ k) : d.nodeAt k = Node.root C := by
  rw [nodeAt_eq_getD, List.getElem?_eq_none h, Option.getD_none]

/-- Effect of `List.set`-based mutation on `nodeAt`. -/
theorem nodeAt_set (d : CommandDispatcher C) (k j : Nat) (n : Node C) (m : List CommandMeta) :
    ({ nodes := d.nodes.set k n, root := d.root, metas := m } : CommandDispatcher C).nodeAt j
      = if j = k ∧ k < d.nodes.length then n else d.nodeAt j := by
  by_cases hjk : j = k
  · subst hjk
    by_cases hk : j < d.nodes.length
    · simp only [hk, and_true, if_pos rfl, nodeAt_eq_getD]
      rw [List.getElem?_set_eq_of_lt n hk]
      rfl
    · rw [if_neg (by simp [hk]), nodeAt_eq_getD, nodeAt_eq_getD,
        List.set_eq_of_length_le (Nat.le_of_not_lt hk)]
  · rw [if_neg (by simp [hjk]), nodeAt_eq_getD, nodeAt_eq_getD,
      List.getElem?_set_ne (fun h => hjk h.symm)]

theorem setExec_length (d : CommandDispatcher C) (k : Nat) (f : C → String → C) :
    (d.setExec k f).nodes.length = d.nodes.length := by
  simp [setExec]

theorem setExec_root (d : CommandDispatcher C) (k : Nat) (f : C → String → C) :
    (d.setExec k f).root = d.root := rfl

theorem setExec_metas (d : CommandDispatcher C) (k : Nat) (f : C → String → C) :
    (d.setExec k f).metas = d.metas := rfl

theorem nodeAt_setExec (d : CommandDispatcher C) (k j : Nat) (f : C → String → C) :
    (d.setExec k f).nodeAt j
      = if j = k ∧ k < d.nodes.length then { d.nodeAt k with exec := some f }
        else d.nodeAt j :=
  nodeAt_set d k j _ _

theorem nodeAt_setExec_kind (d : CommandDispatcher C) (k j : Nat) (f : C → String → C) :
    ((d.setExec k f).nodeAt j).kind = (d.nodeAt j).kind := by
  rw [nodeAt_setExec]
  by_cases h : j = k ∧ k < d.nodes.length
  · rw [if_pos h]; rw [h.1]
  · rw [if_neg h]

theorem nodeAt_setExec_next (d : CommandDispatcher C) (k j : Nat) (f : C → String → C) :
    ((d.setExec k f).nodeAt j).next = (d.nodeAt j).next := by
  rw [nodeAt_setExec]
  by_cases h : j = k ∧ k < d.nodes.length
  · rw [if_pos h]; rw [h.1]
  · rw [if_neg h]

theorem nodeAt_setExec_exec_ne (d : CommandDispatcher C) (k j : Nat) (f : C → String → C)
    (h : j ≠ k) : ((d.setExec k f).nodeAt j).exec = (d.nodeAt j).exec := by
  rw [nodeAt_setExec, if_neg (by simp [h])]

theorem pushChild_length (d : CommandDispatcher C) (k c : Nat) :
    (d.pushChild k c).nodes.length = d.nodes.length := by
  simp [pushChild]

theorem pushChild_root (d : CommandDispatcher C) (k c : Nat) :
    (d.pushChild k c).root = d.root := rfl

theorem pushChild_metas (d : CommandDispatcher C) (k c : Nat) :
    (d.pushChild k c).metas = d.metas := rfl

theorem nodeAt_pushChild (d : CommandDispatcher C) (k j c : Nat) :
    (d.pushChild k c).nodeAt j
      = if j = k ∧ k < d.nodes.length
          then { d.nodeAt k with next := (d.nodeAt k).next ++ [c] }
        else d.nodeAt j :=
  nodeAt_set d k j _ _

theorem nodeAt_pushChild_kind (d : CommandDispatcher C) (k j c : Nat) :
    ((d.pushChild k c).nodeAt j).kind = (d.nodeAt j).kind := by
  rw [nodeAt_pushChild]
  by_cases h : j = k ∧ k < d.nodes.length
  · rw [if_pos h]; rw [h.1]
  · rw [if_neg h]

theorem nodeAt_pushChild_exec (d : CommandDispatcher C) (k j c : Nat) :
    ((d.pushChild k c).nodeAt j).exec = (d.nodeAt j).exec := by
  rw [nodeAt_pushChild]
  by_cases h : j = k ∧ k < d.nodes.length
  · rw [if_pos h]; rw [h.1]
  · rw [if_neg h]

theorem nodeAt_pushChild_next_ne (d : CommandDispatcher C) (k j c : Nat) (h : j ≠ k) :
    ((d.pushChild k c).nodeAt j).next = (d.nodeAt j).next := by
  rw [nodeAt_pushChild, if_neg (by simp [h])]

theorem nodeAt_pushChild_next_self (d : CommandDispatcher C) (k c : Nat)
    (h : k < d.nodes.length) :
    ((d.pushChild k c).nodeAt k).next = (d.nodeAt k).next ++ [c] := by
  rw [nodeAt_pushChild, if_pos ⟨rfl, h⟩]

theorem pushNode_length (d : CommandDispatcher C) (n : Node C) :
    (d.pushNode n).1.nodes.length = d.nodes.length + 1 := by
  simp [pushNode]

theorem pushNode_root (d : CommandDispatcher C) (n : Node C) :
    (d.pushNode n).1.root = d.root := rfl

theorem pushNode_metas (d : CommandDispatcher C) (n : Node C) :
    (d.pushNode n).1.metas = d.metas := rfl

theorem pushNode_key (d : CommandDispatcher C) (n : Node C) :
    (d.pushNode n).2 = d.nodes.length := rfl

theorem nodeAt_pushNode_lt (d : CommandDispatcher C) (n : Node C) (j : Nat)
    (h : j < d.nodes.length) : (d.pushNode n).1.nodeAt j = d.nodeAt j := by
  rw [nodeAt_eq_getD, nodeAt_eq_getD]
  show ((d.nodes ++ [n])[j]?).getD _ = _
  rw [List.getElem?_append_left h]

theorem nodeAt_pushNode_self (d : CommandDispatcher C) (n : Node C) :
    (d.pushNode n).1.nodeAt d.nodes.length = n := by
  rw [nodeAt_eq_getD]
  show ((d.nodes ++ [n])[d.nodes.length]?).getD _ = _
  simp

end CommandDispatcher

/-! ## The arena invariant -/


theorem kindMatches_eq_kindEqb (n : NodeKind C) (k : CommandNodeKind C) :
    kindMatches n k = kindEqb n (Node.ofKind k).kind := by
  cases n <;> cases k <;> rfl

theorem ofKind_kind_ne_root (k : CommandNodeKind C) :
    (Node.ofKind k).kind ≠ NodeKind.Root := by
  cases k <;> simp [Node.ofKind]

namespace CommandDispatcher

variable {C : Type}


/-- `WF` only looks at lengths, kinds, child lists, the root key and the
root handler slot, so it transports along agreement of those
projections. -/
theorem WF.congr (d d' : CommandDispatcher C)
    (hlen : d'.nodes.length = d.nodes.length) (hroot : d'.root = d.root)
    (hkind : ∀ i, (d'.nodeAt i).kind = (d.nodeAt i).kind)
    (hnext : ∀ i, (d'.nodeAt i).next = (d.nodeAt i).next)
    (hexec0 : (d'.nodeAt 0).exec = (d.nodeAt 0).exec)
    (hwf : WF d) : WF d' where
  rootKey := hroot.trans hwf.rootKey
  nodesNonempty := hlen ▸ hwf.nodesNonempty
  rootKind := (hkind 0).trans hwf.rootKind
  rootExec := hexec0.trans hwf.rootExec
  kindNotRoot := fun i h0 hi => (hkind i) ▸ hwf.kindNotRoot i h0 (hlen ▸ hi)
  childBounds := fun i j hj => hlen ▸ hwf.childBounds i j ((hnext i) ▸ hj)
  sibKinds := fun i => by
    rw [hnext i]
    exact (hwf.sibKinds i).imp (fun {a b} hab => by rw [hkind a, hkind b]; exact hab)
  oneParent := fun i₁ i₂ j h₁ h₂ =>
    hwf.oneParent i₁ i₂ j ((hnext i₁) ▸ h₁) ((hnext i₂) ▸ h₂)
  hasParent := fun j h0 hj => by
    obtain ⟨i, hi, hmem⟩ := hwf.hasParent j h0 (hlen ▸ hj)
    exact ⟨i, hlen ▸ hi, (hnext i) ▸ hmem⟩

theorem nodeAt_new (C : Type) (i : Nat) : (new C).nodeAt i = Node.root C := by
  match i with
  | 0 => rfl
  | i + 1 => exact nodeAt_of_length_le _ _ (by simp [new])

/-- The fresh dispatcher is well-formed. -/
theorem wf_new (C : Type) : WF (new C) where
  rootKey := rfl
  nodesNonempty := Nat.zero_lt_one
  rootKind := rfl
  rootExec := rfl
  kindNotRoot := fun i h0 hi => by
    simp only [new, List.length_singleton] at hi
    omega
  childBounds := fun i j hj => by
    rw [nodeAt_new] at hj
    simp [Node.root] at hj
  sibKinds := fun i => by
    rw [nodeAt_new]
    simp [Node.root]
  oneParent := fun i₁ i₂ j h₁ h₂ => by
    exfalso
    rw [nodeAt_new] at h₁
    simp [Node.root] at h₁
  hasParent := fun j h0 hj => by
    simp only [new, List.length_singleton] at hj
    omega

/-- Pairwise transport restricted to members. -/
theorem pairwise_imp_mem {α : Type _} {l : List α} {R S : α → α → Prop}
    (h : ∀ a b, a ∈ l → b ∈ l → R a b → S a b) (hp : l.Pairwise R) : l.Pairwise S := by
  induction hp with
  | nil => exact List.Pairwise.nil
  | cons hr _ ih =>
    exact List.Pairwise.cons
      (fun b hb => h _ b (List.mem_cons_self _ _) (List.mem_cons_of_mem _ hb) (hr b hb))
      (ih (fun a b ha hb => h a b (List.mem_cons_of_mem _ ha) (List.mem_cons_of_mem _ hb)))

/-- `attachExec` preserves well-formedness, the arena size and the
metadata. -/
theorem attachExec_wf (d : CommandDispatcher C) (cur : Nat)
    (e? : Option (C → String → C)) (hwf : WF d) :
    WF (d.attachExec cur e?).1 ∧
    (d.attachExec cur e?).1.nodes.length = d.nodes.length ∧
    (d.attachExec cur e?).1.metas = d.metas ∧
    (d.attachExec cur e?).1.root = d.root := by
  match e? with
  | none => exact ⟨hwf, rfl, rfl, rfl⟩
  | some h =>
    have hcur0 : (d.nodeAt cur).kind ≠ NodeKind.Root → cur ≠ 0 := by
      intro hk h0
      exact hk (h0 ▸ hwf.rootKind)
    have hset : WF (d.setExec cur h) → (d.nodeAt cur).kind ≠ NodeKind.Root →
        WF (d.setExec cur h) ∧
        (d.setExec cur h).nodes.length = d.nodes.length ∧
        (d.setExec cur h).metas = d.metas ∧
        (d.setExec cur h).root = d.root :=
      fun hw _ => ⟨hw, setExec_length d cur h, setExec_metas d cur h, setExec_root d cur h⟩
    have hwfset : (d.nodeAt cur).kind ≠ NodeKind.Root → WF (d.setExec cur h) := by
      intro hk
      exact WF.congr d (d.setExec cur h) (setExec_length d cur h) (setExec_root d cur h)
        (nodeAt_setExec_kind d cur · h) (nodeAt_setExec_next d cur · h)
        (nodeAt_setExec_exec_ne d cur 0 h (fun he => hcur0 hk he.symm))
        hwf
    cases hk : (d.nodeAt cur).kind with
    | Root =>
      have hres : d.attachExec cur (some h) = (d, some RegisterError.ExecutableRoot) := by
        simp only [attachExec, hk]
      rw [hres]
      exact ⟨hwf, rfl, rfl, rfl⟩
    | Literal lit =>
      cases hex : (d.nodeAt cur).exec with
      | some f =>
        have hres : d.attachExec cur (some h) = (d, some RegisterError.OverlappingCommands) := by
          simp only [attachExec, hk, hex]
        rw [hres]
        exact ⟨hwf, rfl, rfl, rfl⟩
      | none =>
        have hres : d.attachExec cur (some h) = (d.setExec cur h, none) := by
          simp only [attachExec, hk, hex]
        rw [hres]
        exact hset (hwfset (by rw [hk]; simp)) (by rw [hk]; simp)
    | Parser p =>
      cases hex : (d.nodeAt cur).exec with
      | some f =>
        have hres : d.attachExec cur (some h) = (d, some RegisterError.OverlappingCommands) := by
          simp only [attachExec, hk, hex]
        rw [hres]
        exact ⟨hwf, rfl, rfl, rfl⟩
      | none =>
        have hres : d.attachExec cur (some h) = (d.setExec cur h, none) := by
          simp only [attachExec, hk, hex]
        rw [hres]
        exact hset (hwfset (by rw [hk]; simp)) (by rw [hk]; simp)

theorem ofKind_next (k : CommandNodeKind C) : (Node.ofKind k).next = [] := by
  cases k <;> rfl

theorem ofKind_exec (k : CommandNodeKind C) : (Node.ofKind k).exec = none := by
  cases k <;> rfl

/-- The combined node-allocation step of `append_node`: push a fresh node
for the kind and append its key to `cur`'s children. -/
theorem nodeAt_extend (d : CommandDispatcher C) (cur : Nat) (k : CommandNodeKind C)
    (hcur : cur < d.nodes.length) (j : Nat) :
    ((d.pushNode (Node.ofKind k)).1.pushChild cur d.nodes.length).nodeAt j
      = if j = cur then
          { d.nodeAt cur with next := (d.nodeAt cur).next ++ [d.nodes.length] }
        else if j = d.nodes.length then Node.ofKind k
        else d.nodeAt j := by
  set P := (d.pushNode (Node.ofKind k)).1 with hP
  have hPlen : P.nodes.length = d.nodes.length + 1 := pushNode_length d _
  by_cases hjc : j = cur
  · subst hjc
    rw [if_pos rfl, nodeAt_pushChild, if_pos ⟨rfl, by omega⟩,
      nodeAt_pushNode_lt d _ j hcur]
  · rw [if_neg hjc, nodeAt_pushChild, if_neg (by simp [hjc])]
    by_cases hjL : j = d.nodes.length
    · subst hjL
      rw [if_pos rfl]
      exact nodeAt_pushNode_self d _
    · rw [if_neg hjL]
      rcases Nat.lt_or_ge j d.nodes.length with hlt | hge
      · exact nodeAt_pushNode_lt d _ j hlt
      · have hge' : d.nodes.length + 1 ≤ j := by omega
        rw [nodeAt_of_length_le P j (by omega), nodeAt_of_length_le d j hge]

theorem extend_length (d : CommandDispatcher C) (cur : Nat) (k : CommandNodeKind C) :
    ((d.pushNode (Node.ofKind k)).1.pushChild cur d.nodes.length).nodes.length
      = d.nodes.length + 1 := by
  rw [pushChild_length, pushNode_length]

theorem extend_root (d : CommandDispatcher C) (cur : Nat) (k : CommandNodeKind C) :
    ((d.pushNode (Node.ofKind k)).1.pushChild cur d.nodes.length).root = d.root := rfl

theorem extend_metas (d : CommandDispatcher C) (cur : Nat) (k : CommandNodeKind C) :
    ((d.pushNode (Node.ofKind k)).1.pushChild cur d.nodes.length).metas = d.metas := rfl

/-- Allocating a fresh child node — when no existing child of `cur` has a
matching kind — preserves well-formedness. -/
theorem wf_extend (d : CommandDispatcher C) (hwf : WF d) (cur : Nat)
    (hcur : cur < d.nodes.length) (k : CommandNodeKind C)
    (hfind : ∀ j ∈ (d.nodeAt cur).next, kindMatches (d.nodeAt j).kind k = false) :
    WF ((d.pushNode (Node.ofKind k)).1.pushChild cur d.nodes.length) := by
  have hL0 : 0 < d.nodes.length := hwf.nodesNonempty
  have hcurL : cur ≠ d.nodes.length := Nat.ne_of_lt hcur
  set L := d.nodes.length with hLdef
  set E := (d.pushNode (Node.ofKind k)).1.pushChild cur L with hEdef
  have hlen : E.nodes.length = L + 1 := extend_length d cur k
  have hnode : ∀ j, E.nodeAt j
      = if j = cur then { d.nodeAt cur with next := (d.nodeAt cur).next ++ [L] }
        else if j = L then Node.ofKind k
        else d.nodeAt j := nodeAt_extend d cur k hcur
  have hkind : ∀ j, (E.nodeAt j).kind
      = if j = L then (Node.ofKind k).kind else (d.nodeAt j).kind := by
    intro j
    rw [hnode j]
    by_cases hjc : j = cur
    · subst hjc
      rw [if_pos rfl, if_neg hcurL]
    · rw [if_neg hjc]
      by_cases hjL : j = L
      · rw [if_pos hjL, if_pos hjL]
      · rw [if_neg hjL, if_neg hjL]
  have hnext : ∀ j, (E.nodeAt j).next
      = if j = cur then (d.nodeAt cur).next ++ [L]
        else if j = L then []
        else (d.nodeAt j).next := by
    intro j
    rw [hnode j]
    by_cases hjc : j = cur
    · subst hjc
      rw [if_pos rfl, if_pos rfl]
    · rw [if_neg hjc, if_neg hjc]
      by_cases hjL : j = L
      · rw [if_pos hjL, if_pos hjL, ofKind_next]
      · rw [if_neg hjL, if_neg hjL]
  have hexec : ∀ j, (E.nodeAt j).exec
      = if j = L then none else (d.nodeAt j).exec := by
    intro j
    rw [hnode j]
    by_cases hjc : j = cur
    · subst hjc
      rw [if_pos rfl, if_neg hcurL]
    · rw [if_neg hjc]
      by_cases hjL : j = L
      · rw [if_pos hjL, if_pos hjL, ofKind_exec]
      · rw [if_neg hjL, if_neg hjL]
  have hmemNext : ∀ i j, j ∈ (E.nodeAt i).next →
      (j = L → i = cur) ∧ (j ≠ L → j ∈ (d.nodeAt i).next) := by
    intro i j hmem
    rw [hnext i] at hmem
    by_cases hic : i = cur
    · subst hic
      rw [if_pos rfl] at hmem
      rcases List.mem_append.mp hmem with ha | hb

      · have hjlt : j < L := (hwf.childBounds i j ha).2
        exact ⟨fun _ => rfl, fun _ => ha⟩
      · have hjL : j = L := List.mem_singleton.mp hb
        exact ⟨fun _ => rfl, fun hne => absurd hjL hne⟩
    · rw [if_neg hic] at hmem
      by_cases hiL : i = L
      · rw [if_pos hiL] at hmem
        exact absurd hmem (List.not_mem_nil j)
      · rw [if_neg hiL] at hmem
        have hjlt : j < L := (hwf.childBounds i j hmem).2
        exact ⟨fun hjL => absurd (hjL ▸ hjlt) (Nat.lt_irrefl L), fun _ => hmem⟩
  constructor
  · exact (extend_root d cur k).trans hwf.rootKey
  · rw [hlen]; exact Nat.succ_pos L
  · rw [hkind 0, if_neg (Nat.ne_of_lt hL0)]
    exact hwf.rootKind
  · rw [hexec 0, if_neg (Nat.ne_of_lt hL0)]
    exact hwf.rootExec
  · intro i h0 hi
    rw [hkind i]
    by_cases hiL : i = L
    · rw [if_pos hiL]
      exact ofKind_kind_ne_root k
    · rw [if_neg hiL]
      rw [hlen] at hi
      exact hwf.kindNotRoot i h0 (by omega)
  · intro i j hj
    rw [hnext i] at hj
    rw [hlen]
    by_cases hic : i = cur
    · subst hic
      rw [if_pos rfl] at hj
      rcases List.mem_append.mp hj with ha | hb
      · have := hwf.childBounds i j ha
        omega
      · have hjL : j = L := List.mem_singleton.mp hb
        omega
    · rw [if_neg hic] at hj
      by_cases hiL : i = L
      · rw [if_pos hiL] at hj
        exact absurd hj (List.not_mem_nil j)
      · rw [if_neg hiL] at hj
        have := hwf.childBounds i j hj
        omega
  · intro i
    rw [hnext i]
    by_cases hic : i = cur
    · subst hic
      rw [if_pos rfl]
      rw [List.pairwise_append]
      refine ⟨?_, by simp, ?_⟩
      · refine pairwise_imp_mem (fun a b ha hb hab => ?_) (hwf.sibKinds i)
        have haL : a < L := (hwf.childBounds i a ha).2
        have hbL : b < L := (hwf.childBounds i b hb).2
        rw [hkind a, if_neg (Nat.ne_of_lt haL), hkind b, if_neg (Nat.ne_of_lt hbL)]
        exact hab
      · intro a ha b hb
        have hbL : b = L := List.mem_singleton.mp hb
        have haL : a < L := (hwf.childBounds i a ha).2
        rw [hkind a, if_neg (Nat.ne_of_lt haL), hkind b, if_pos hbL]
        rw [← kindMatches_eq_kindEqb]
        exact hfind a ha
    · rw [if_neg hic]
      by_cases hiL : i = L
      · rw [if_pos hiL]
        exact List.Pairwise.nil
      · rw [if_neg hiL]
        refine pairwise_imp_mem (fun a b ha hb hab => ?_) (hwf.sibKinds i)
        have haL : a < L := (hwf.childBounds i a ha).2
        have hbL : b < L := (hwf.childBounds i b hb).2
        rw [hkind a, if_neg (Nat.ne_of_lt haL), hkind b, if_neg (Nat.ne_of_lt hbL)]
        exact hab
  · intro i₁ i₂ j h₁ h₂
    by_cases hjL : j = L
    · rw [(hmemNext i₁ j h₁).1 hjL, (hmemNext i₂ j h₂).1 hjL]
    · exact hwf.oneParent i₁ i₂ j ((hmemNext i₁ j h₁).2 hjL) ((hmemNext i₂ j h₂).2 hjL)
  · intro j h0 hj
    rw [hlen] at hj
    by_cases hjL : j = L
    · refine ⟨cur, by omega, ?_⟩
      rw [hnext cur, if_pos rfl, hjL]
      exact List.mem_append_right _ (List.mem_singleton.mpr rfl)
    · obtain ⟨i, hi, hm⟩ := hwf.hasParent j h0 (by omega)
      refine ⟨i, by omega, ?_⟩
      rw [hnext i]
      by_cases hic : i = cur
      · rw [if_pos hic]
        exact List.mem_append_left _ (hic ▸ hm)
      · rw [if_neg hic, if_neg (Nat.ne_of_lt hi)]
        exact hm

/-- Unfolding of `append_node` when the handler-attachment step fails. -/
theorem append_node_eq_of_err {d d1 : CommandDispatcher C} {cur : Nat}
    {kind : CommandNodeKind C} {exec? : Option (C → String → C)}
    {children : CommandNodeList C} {e : RegisterError}
    (h : d.attachExec cur exec? = (d1, some e)) :
    append_node d cur (CommandNode.mk kind exec? children) = (d1, some e) := by
  simp only [append_node, h]

/-- Unfolding of `append_node` when a kind-equal child already exists. -/
theorem append_node_eq_of_found {d d1 : CommandDispatcher C} {cur : Nat}
    {kind : CommandNodeKind C} {exec? : Option (C → String → C)}
    {children : CommandNodeList C} {found : Nat}
    (h : d.attachExec cur exec? = (d1, none))
    (hf : (d1.nodeAt cur).next.find? (fun j => kindMatches (d1.nodeAt j).kind kind)
      = some found) :
    append_node d cur (CommandNode.mk kind exec? children)
      = append_children d1 found children := by
  simp only [append_node, h, hf]

/-- Unfolding of `append_node` when a fresh child node is allocated. -/
theorem append_node_eq_of_new {d d1 : CommandDispatcher C} {cur : Nat}
    {kind : CommandNodeKind C} {exec? : Option (C → String → C)}
    {children : CommandNodeList C}
    (h : d.attachExec cur exec? = (d1, none))
    (hf : (d1.nodeAt cur).next.find? (fun j => kindMatches (d1.nodeAt j).kind kind)
      = none) :
    append_node d cur (CommandNode.mk kind exec? children)
      = append_children ((d1.pushNode (Node.ofKind kind)).1.pushChild cur d1.nodes.length)
          d1.nodes.length children := by
  simp only [append_node, h, hf]
  rfl

/-- Unfolding of `append_children` when merging the head child fails. -/
theorem append_children_eq_of_err {d d1 : CommandDispatcher C} {cur : Nat}
    {t : CommandNode C} {rest : CommandNodeList C} {e : RegisterError}
    (h : append_node d cur t = (d1, some e)) :
    append_children d cur (CommandNodeList.cons t rest) = (d1, some e) := by
  simp only [append_children, h]

/-- Unfolding of `append_children` when merging the head child succeeds. -/
theorem append_children_eq_of_ok {d d1 : CommandDispatcher C} {cur : Nat}
    {t : CommandNode C} {rest : CommandNodeList C}
    (h : append_node d cur t = (d1, none)) :
    append_children d cur (CommandNodeList.cons t rest)
      = append_children d1 cur rest := by
  simp only [append_children, h]

mutual

/-- `append_node` preserves well-formedness, never shrinks the arena, and
leaves the metadata untouched. -/
theorem append_node_wf (d : CommandDispatcher C) (cur : Nat) (t : CommandNode C)
    (hwf : WF d) (hcur : cur < d.nodes.length) :
    WF (append_node d cur t).1 ∧
    d.nodes.length ≤ (append_node d cur t).1.nodes.length ∧
    (append_node d cur t).1.metas = d.metas := by
  match t with
  | CommandNode.mk kind exec? children =>
    obtain ⟨hwf1, hlen1, hmet1, _⟩ := attachExec_wf d cur exec? hwf
    rcases hAE : d.attachExec cur exec? with ⟨d1, err⟩
    rw [hAE] at hwf1 hlen1 hmet1
    have hwf1 : WF d1 := hwf1
    have hlen1 : d1.nodes.length = d.nodes.length := hlen1
    have hmet1 : d1.metas = d.metas := hmet1
    cases err with
    | some e =>
      rw [append_node_eq_of_err hAE]
      exact ⟨hwf1, Nat.le_of_eq hlen1.symm, hmet1⟩
    | none =>
      have hcur1 : cur < d1.nodes.length := by rw [hlen1]; exact hcur
      cases hfind : (d1.nodeAt cur).next.find?
          (fun j => kindMatches (d1.nodeAt j).kind kind) with
      | some found =>
        rw [append_node_eq_of_found hAE hfind]
        have hmem : found ∈ (d1.nodeAt cur).next := List.mem_of_find?_eq_some hfind
        have hfb : found < d1.nodes.length := (hwf1.childBounds cur found hmem).2
        obtain ⟨hw, hl, hm⟩ := append_children_wf d1 found children hwf1 hfb
        exact ⟨hw, hlen1 ▸ hl, hm.trans hmet1⟩
      | none =>
        rw [append_node_eq_of_new hAE hfind]
        have hnone : ∀ j ∈ (d1.nodeAt cur).next,
            kindMatches (d1.nodeAt j).kind kind = false := by
          intro j hj
          simpa using List.find?_eq_none.mp hfind j hj
        have hwfE := wf_extend d1 hwf1 cur hcur1 kind hnone
        have hlE := extend_length d1 cur kind
        obtain ⟨hw, hl, hm⟩ := append_children_wf
          ((d1.pushNode (Node.ofKind kind)).1.pushChild cur d1.nodes.length)
          d1.nodes.length children hwfE (by rw [hlE]; exact Nat.lt_succ_self _)
        refine ⟨hw, ?_, ?_⟩
        · rw [hlE] at hl
          omega
        · rw [hm, extend_metas, hmet1]

/-- `append_children` preserves well-formedness, never shrinks the arena,
and leaves the metadata untouched. -/
theorem append_children_wf (d : CommandDispatcher C) (cur : Nat) (ts : CommandNodeList C)
    (hwf : WF d) (hcur : cur < d.nodes.length) :
    WF (append_children d cur ts).1 ∧
    d.nodes.length ≤ (append_children d cur ts).1.nodes.length ∧
    (append_children d cur ts).1.metas = d.metas := by
  match ts with
  | CommandNodeList.nil =>
    exact ⟨hwf, Nat.le_refl _, rfl⟩
  | CommandNodeList.cons t rest =>
    obtain ⟨hw1, hl1, hm1⟩ := append_node_wf d cur t hwf hcur
    rcases hAN : append_node d cur t with ⟨d1, err⟩
    rw [hAN] at hw1 hl1 hm1
    have hw1 : WF d1 := hw1
    have hl1 : d.nodes.length ≤ d1.nodes.length := hl1
    have hm1 : d1.metas = d.metas := hm1
    cases err with
    | some e =>
      rw [append_children_eq_of_err hAN]
      exact ⟨hw1, hl1, hm1⟩
    | none =>
      rw [append_children_eq_of_ok hAN]
      obtain ⟨hw2, hl2, hm2⟩ := append_children_wf d1 cur rest hw1 (by omega)
      exact ⟨hw2, hl1.trans hl2, hm2.trans hm1⟩

end

/-- `register` preserves well-formedness and appends exactly the new
command's metadata, whether or not the registration succeeds. -/
theorem register_wf (d : CommandDispatcher C) (c : CommandDecl C) (hwf : WF d) :
    WF (register d c).1 ∧ (register d c).1.metas = d.metas ++ [c.meta] := by
  have hwm : WF { d with metas := d.metas ++ [c.meta] } :=
    WF.congr d { d with metas := d.metas ++ [c.meta] } rfl rfl
      (fun _ => rfl) (fun _ => rfl) rfl hwf
  have hcur : d.root < ({ d with metas := d.metas ++ [c.meta] } :
      CommandDispatcher C).nodes.length := by
    show d.root < d.nodes.length
    rw [hwf.rootKey]
    exact hwf.nodesNonempty
  obtain ⟨hw, _, hm⟩ := append_node_wf _ d.root c.rootNode hwm hcur
  exact ⟨hw, hm⟩


/-- Every reachable dispatcher is well-formed. -/
theorem Reachable.wf {d : CommandDispatcher C} (h : Reachable C d) : WF d := by
  induction h with
  | base => exact wf_new C
  | step d c _ ih => exact (register_wf d c ih).1


theorem registerAll_reachable (cs : List (CommandDecl C)) :
    ∀ d, Reachable C d → Reachable C (registerAll d cs) := by
  induction cs with
  | nil => exact fun d h => h
  | cons c cs ih => exact fun d h => ih _ (Reachable.step d c h)

/-- Every `register` call — successful or failed — adds exactly one
metadata entry. -/
theorem registerAll_metas (cs : List (CommandDecl C)) :
    ∀ d, WF d → (registerAll d cs).metas.length = d.metas.length + cs.length := by
  induction cs with
  | nil => intro d _; simp [registerAll]
  | cons c cs ih =>
    intro d hwf
    obtain ⟨hw, hm⟩ := register_wf d c hwf
    show (registerAll (register d c).1 cs).metas.length = _
    rw [ih _ hw, hm]
    simp only [List.length_append, List.length_cons, List.length_nil]
    omega

/-! ## The dispatch loop agrees with the spec's reference algorithm -/

theorem tryChild_eq_satisfiedBy (d : CommandDispatcher C) (ctx : C) (input : Input)
    (j : Nat) : tryChild d ctx input j = SpecAlg.satisfiedBy d ctx input j := by
  cases hk : (d.nodeAt j).kind with
  | Literal lit =>
    simp only [tryChild, SpecAlg.satisfiedBy, hk]
    by_cases he : lit.data = (input.head ' ').1
    all_goals simp [he]
  | Parser p =>
    simp only [tryChild, SpecAlg.satisfiedBy, hk]
  | Root =>
    simp only [tryChild, SpecAlg.satisfiedBy, hk]

theorem findFirst_eq_findSome? (d : CommandDispatcher C) (ctx : C) (input : Input)
    (l : List Nat) :
    findFirst d ctx input l
      = l.findSome? (fun child =>
          (SpecAlg.satisfiedBy d ctx input child).map (fun st => (child, st))) := by
  induction l with
  | nil => rfl
  | cons j rest ih =>
    rw [List.findSome?_cons]
    rw [← tryChild_eq_satisfiedBy]
    cases h : tryChild d ctx input j with
    | some st => simp [findFirst, h]
    | none => simp [findFirst, h, ih]

theorem dispatchLoop_eq_loop (d : CommandDispatcher C) (ctx : C) :
    ∀ fuel cur input,
    dispatchLoop d ctx fuel cur input = SpecAlg.loop d ctx fuel cur input := by
  intro fuel
  induction fuel with
  | zero => intro cur input; rfl
  | succ n ih =>
    intro cur input
    simp only [dispatchLoop, SpecAlg.loop, ← findFirst_eq_findSome?]
    by_cases hi : List.isEmpty input
    · simp [hi]
    · simp only [hi, if_neg, Bool.false_eq_true, if_false]
      cases h : findFirst d ctx input (d.nodeAt cur).next with
      | some pr =>
        rcases pr with ⟨nk, st⟩
        simp [h, ih]
      | none => simp [h]

/-! ## Termination of dispatch -/

theorem findFirst_mem (d : CommandDispatcher C) (ctx : C) (input : Input)
    (l : List Nat) {j : Nat} {st : Input}
    (h : findFirst d ctx input l = some (j, st)) : j ∈ l := by
  induction l with
  | nil => exact absurd h (by simp [findFirst])
  | cons a rest ih =>
    rw [findFirst] at h
    cases ht : tryChild d ctx input a with
    | some st' =>
      rw [ht] at h
      injection h with h'
      injection h' with h1 h2
      exact h1 ▸ List.mem_cons_self a rest
    | none =>
      rw [ht] at h
      exact List.mem_cons_of_mem a (ih h)

/-- With a well-formed arena, a fuel of `nodes.length - cur` steps is
always enough: the loop strictly descends the tree. -/
theorem dispatchLoop_no_fuelOut (d : CommandDispatcher C) (hwf : WF d) (ctx : C) :
    ∀ fuel cur input, cur < d.nodes.length → d.nodes.length - cur ≤ fuel →
    dispatchLoop d ctx fuel cur input ≠ LoopResult.fuelOut := by
  intro fuel
  induction fuel with
  | zero =>
    intro cur input hc hf
    exfalso
    omega
  | succ n ih =>
    intro cur input hc hf
    simp only [dispatchLoop]
    by_cases hi : List.isEmpty input
    · simp [hi]
    · simp only [hi, Bool.false_eq_true, if_false]
      cases hfd : findFirst d ctx input (d.nodeAt cur).next with
      | some pr =>
        rcases pr with ⟨nk, st⟩
        have hmem := findFirst_mem d ctx input _ hfd
        have hb := hwf.childBounds cur nk hmem
        exact ih nk st hb.2 (by omega)
      | none => simp

end CommandDispatcher

/-! ## The claims -/

open CommandDispatcher

/-- C1: For every dispatcher, context and command text, `dispatch` follows
the reference algorithm of the spec: starting at `Root` with a fresh
cursor, while the cursor is non-empty it selects the first child, in
insertion order, whose kind is satisfied by the remaining input (a
`Literal` child matches iff its text equals `cursor.head(" ")`; a `Parser`
child matches iff its checker satisfies a clone of the cursor), commits
that candidate's cursor state, returns false immediately if no child
matches without backtracking, and when the cursor is empty invokes the
current node's handler with the context and the original full command
text, returning true iff a handler is present. -/
theorem claim1_dispatch_follows_reference_algorithm {C : Type}
    (d : CommandDispatcher C) (ctx : C) (command : String) :
    dispatch d ctx command = SpecAlg.dispatchSpec d ctx command := by
  unfold dispatch SpecAlg.dispatchSpec
  rw [dispatchLoop_eq_loop]

/-- C2: For every `Or` parser and input cursor: if the first sub-parser
succeeds, `Or::parse` returns `Some` of `Either::A` of its result while
the caller-visible cursor remains unadvanced (only a discarded clone was
advanced); if the first fails, the second is run against the original
cursor, advancing it on success and yielding `Either::B`; if both fail,
`Or::parse` returns `None`. -/
theorem claim2_or_combinator {α β : Type} (p : ParserFn α) (q : ParserFn β)
    (input : Input) :
    (∀ v, (p input).1 = some v →
      Or.parse ⟨p, q⟩ input = (some (Either.A v), input)) ∧
    ((p input).1 = none → ∀ w out, q input = (some w, out) →
      Or.parse ⟨p, q⟩ input = (some (Either.B w), out)) ∧
    ((p input).1 = none → (q input).1 = none →
      (Or.parse ⟨p, q⟩ input).1 = none) := by
  refine ⟨?_, ?_, ?_⟩
  · intro v hv
    simp only [Or.parse, hv]
  · intro hp w out hq
    simp only [Or.parse, hp, hq]
  · intro hp hq
    rcases hqq : q input with ⟨r, out⟩
    rw [hqq] at hq
    have hr : r = none := hq
    subst hr
    simp only [Or.parse, hp, hqq]

/-- C2 witness: the three cases of `claim2_or_combinator` at concrete
parsers and a concrete cursor. -/
theorem claim2_or_combinator_witness :
    Or.parse ⟨constParser 5, dropParser 7⟩ (Input.new "xy")
      = (some (Either.A 5), Input.new "xy") ∧
    Or.parse ⟨failParser, dropParser 7⟩ (Input.new "xy")
      = (some (Either.B 7), Input.new "y") ∧
    (Or.parse ⟨failParser, failParser⟩ (Input.new "xy")).1 = none := by
  refine ⟨?_, ?_, ?_⟩
  · exact (claim2_or_combinator (constParser 5) (dropParser 7) (Input.new "xy")).1 5 rfl
  · exact (claim2_or_combinator failParser (dropParser 7) (Input.new "xy")).2.1
      rfl 7 (Input.new "y") (by decide)
  · exact (claim2_or_combinator failParser failParser (Input.new "xy")).2.2 rfl rfl

/-- C3 counterexample: registering `"foo"` as executable twice makes the
second `register` call fail, yet `command_meta()` yields 2 items, not 1:
the metadata is pushed before the node merge is validated, so failed
`register` calls do contribute metadata, contrary to the claim. -/
theorem claim3_metadata_counterexample :
    fooOnceReg.2 = none ∧
    fooTwiceReg.2 = some RegisterError.OverlappingCommands ∧
    (command_meta fooTwiceReg.1).length = 2 ∧
    (command_meta fooTwiceReg.1).length ≠ 1 := by
  refine ⟨by decide, by decide, by decide, by decide⟩

/-- C3 (amended): after any sequence of `register` calls, the number of
items yielded by `command_meta()` equals the total number of `register`
calls — successful or failed — regardless of arena sharing, because each
call pushes its metadata before the merge is validated. -/
theorem claim3_metadata_amended (C : Type) (cs : List (CommandDecl C)) :
    (command_meta (registerAll (new C) cs)).length = cs.length := by
  have h := registerAll_metas cs (new C) (wf_new C)
  simpa [command_meta, new] using h

/-- C4: Registering two commands whose full grammar is the single literal
`"foo"` with a handler: the first `register` succeeds, the second returns
`OverlappingCommands` with the first handler left in place, and
dispatching `"foo"` afterwards still invokes the first registration's
handler and returns true. -/
theorem claim4_overlap_rejection :
    fooOnceReg.2 = none ∧
    fooTwiceReg.2 = some RegisterError.OverlappingCommands ∧
    dispatch fooTwiceReg.1 [] "foo" = ([["foo1"]], true) := by
  refine ⟨by decide, by decide, by decide⟩

/-- C5: Registering a command whose node tree attaches a handler to the
tree's own root (a command consuming zero tokens) returns
`ExecutableRoot`, and consequently the dispatcher's `Root` node never
carries a handler in any reachable dispatcher state. -/
theorem claim5_executable_root {C : Type} (d : CommandDispatcher C)
    (hd : Reachable C d) (c : CommandDecl C) (kind : CommandNodeKind C)
    (h : C → String → C) (children : CommandNodeList C)
    (hc : c.rootNode = CommandNode.mk kind (some h) children) :
    (register d c).2 = some RegisterError.ExecutableRoot ∧
    (∀ d', Reachable C d' → (d'.nodeAt d'.root).exec = none) := by
  have hwf := hd.wf
  constructor
  · unfold register
    rw [hc]
    have hkind : (({ d with metas := d.metas ++ [c.meta] } :
        CommandDispatcher C).nodeAt d.root).kind = NodeKind.Root := by
      show (d.nodeAt d.root).kind = NodeKind.Root
      rw [hwf.rootKey]
      exact hwf.rootKind
    have hAE : ({ d with metas := d.metas ++ [c.meta] } :
        CommandDispatcher C).attachExec d.root (some h)
        = ({ d with metas := d.metas ++ [c.meta] }, some RegisterError.ExecutableRoot) := by
      simp only [attachExec, hkind]
    rw [append_node_eq_of_err hAE]
  · intro d' hd'
    have hwf' := hd'.wf
    rw [hwf'.rootKey]
    exact hwf'.rootExec

/-- C5 witness: the zero-token command rejected on the fresh dispatcher,
whose root indeed carries no handler. -/
theorem claim5_executable_root_witness :
    (register (new Log) zeroTokenCmd).2 = some RegisterError.ExecutableRoot ∧
    ((new Log).nodeAt (new Log).root).exec = none := by
  have h := claim5_executable_root (new Log) Reachable.base zeroTokenCmd
    (CommandNodeKind.Literal "") (fun log _ => log ++ [["zero"]])
    CommandNodeList.nil rfl
  exact ⟨h.1, h.2 (new Log) Reachable.base⟩

/-- C6: Registering `"foo bar"` and `"foo baz"` allocates exactly one
arena node for the shared literal `"foo"`, with two distinct children
(the `"bar"` and `"baz"` literals); and after every sequence of register
calls (successful or failed) no node in the arena has two children with
equal kind. -/
theorem claim6_prefix_sharing :
    (fooTreeReg.2 = none ∧
     countLiteral fooTreeReg.1 "foo" = 1 ∧
     (fooTreeReg.1.nodeAt 1).kind = NodeKind.Literal "foo" ∧
     (fooTreeReg.1.nodeAt 1).next = [2, 4] ∧
     (fooTreeReg.1.nodeAt 2).kind = NodeKind.Literal "bar" ∧
     (fooTreeReg.1.nodeAt 4).kind = NodeKind.Literal "baz") ∧
    (∀ (C : Type) (d : CommandDispatcher C), Reachable C d → ∀ i,
      (d.nodeAt i).next.Pairwise
        (fun a b => kindEqb (d.nodeAt a).kind (d.nodeAt b).kind = false)) := by
  refine ⟨⟨by decide, by decide, rfl, by decide, rfl, rfl⟩, ?_⟩
  intro C d hd i
  exact hd.wf.sibKinds i

/-- C6 witness: the sibling-kind-uniqueness conjunct instantiated at the
prefix-sharing dispatcher and the shared `"foo"` node. -/
theorem claim6_prefix_sharing_witness :
    (fooTreeReg.1.nodeAt 1).next.Pairwise
      (fun a b => kindEqb (fooTreeReg.1.nodeAt a).kind
        (fooTreeReg.1.nodeAt b).kind = false) :=
  claim6_prefix_sharing.2 Log fooTreeReg.1
    (Reachable.step _ fooBazCmd (Reachable.step _ fooBarCmd Reachable.base)) 1

/-- C7: `Exec::parse` returns `Some` iff the inner parser succeeds and the
cursor is empty immediately afterwards; unconsumed trailing input after a
successful inner parse makes it return `None` (a plain parse failure);
on success the produced `Command` pairs the extracted arguments with the
handler, and `Command::call` invokes the handler exactly once with the
owned extracted value. -/
theorem claim7_exec_parse {E C : Type} (p : ParserFn E) (h : C → E → C)
    (input : Input) :
    ((Exec.parse ⟨p, h⟩ input).1.isSome
      ↔ ((p input).1.isSome ∧ (p input).2 = ([] : Input))) ∧
    (∀ ex, (p input).1 = some ex → (p input).2 = ([] : Input) →
      Exec.parse ⟨p, h⟩ input = (some ⟨ex, h⟩, (p input).2)) ∧
    (∀ ex, (p input).1 = some ex → (p input).2 ≠ ([] : Input) →
      (Exec.parse ⟨p, h⟩ input).1 = none) ∧
    (∀ (ex : E) (ctx : C), Command.call ⟨ex, h⟩ ctx = h ctx ex) := by
  rcases hp : p input with ⟨r, rest⟩
  refine ⟨?_, ?_, ?_, fun ex ctx => rfl⟩
  · simp only [Exec.parse, hp]
    cases r with
    | none => simp
    | some ex => cases rest <;> simp
  · intro ex hex hrest
    have hr : r = some ex := hex
    have hre : rest = [] := hrest
    subst hr
    subst hre
    simp [Exec.parse, hp]
  · intro ex hex hrest
    have hr : r = some ex := hex
    have hre : rest ≠ [] := hrest
    subst hr
    simp only [Exec.parse, hp]
    cases rest with
    | nil => exact absurd rfl hre
    | cons a l => simp

/-- C7 witness: the conjuncts of `claim7_exec_parse` at concrete parsers,
a concrete cursor and a concrete handler. -/
theorem claim7_exec_parse_witness :
    ((Exec.parse ⟨dropParser 3, fun (n e : Nat) => n + e⟩ (Input.new "a")).1.isSome
      ↔ ((dropParser 3 (Input.new "a")).1.isSome
          ∧ (dropParser 3 (Input.new "a")).2 = ([] : Input))) ∧
    Exec.parse ⟨dropParser 3, fun (n e : Nat) => n + e⟩ (Input.new "a")
      = (some ⟨3, fun (n e : Nat) => n + e⟩, (dropParser 3 (Input.new "a")).2) ∧
    (Exec.parse ⟨dropParser 3, fun (n e : Nat) => n + e⟩ (Input.new "abc")).1 = none ∧
    Command.call ⟨(3 : Nat), fun (n e : Nat) => n + e⟩ 10 = 13 := by
  refine ⟨(claim7_exec_parse (dropParser 3) (fun n e => n + e) (Input.new "a")).1,
    (claim7_exec_parse (dropParser 3) (fun n e => n + e) (Input.new "a")).2.1
      3 (by decide) (by decide),
    (claim7_exec_parse (dropParser 3) (fun n e => n + e) (Input.new "abc")).2.2.1
      3 (by decide) (by decide),
    (claim7_exec_parse (dropParser 3) (fun n e => n + e) (Input.new "a")).2.2.2 3 10⟩

/-- C8 counterexample: after registering `"tp <player> <destination>"`
and then `"tp here"` (in that order, both registrations succeeding),
dispatching `"tp here"` returns false and invokes no handler — the greedy
first-match commits to the `<player>` parser child, which was inserted
first and whose node carries no handler — contradicting the claim that
the second command's handler is invoked. -/
theorem claim8_end_to_end_counterexample :
    (register (new Log) tpArgsCmd).2 = none ∧
    tpClaimReg.2 = none ∧
    dispatch tpClaimReg.1 [] "tp here" = ([], false) := by
  refine ⟨by decide, by decide, by decide⟩

/-- C8 (amended): with the claim's registration order, dispatch of
`"tp here"` returns false without invoking a handler (first-match commits
to the `<player>` parser child, which has no handler); dispatch of
`"tp Steve spawn"` invokes the first command's handler with the extracted
pair `("Steve", "spawn")` and returns true; dispatch of `"tp"` returns
false because the matched node carries no handler. -/
theorem claim8_end_to_end_amended :
    dispatch tpClaimReg.1 [] "tp here" = ([], false) ∧
    dispatch tpClaimReg.1 [] "tp Steve spawn"
      = ([["tp-args", "Steve", "spawn"]], true) ∧
    dispatch tpClaimReg.1 [] "tp" = ([], false) := by
  refine ⟨by decide, by decide, by decide⟩

/-- C9: For every reachable dispatcher and every context, dispatching the
empty string returns false and invokes no handler: the matching loop ends
immediately with the current node still at `Root`, and `Root` never
carries a handler. -/
theorem claim9_dispatch_empty_string {C : Type} (d : CommandDispatcher C)
    (hd : Reachable C d) (ctx : C) :
    dispatchLoop d ctx d.nodes.length d.root (Input.new "")
      = LoopResult.finished d.root ∧
    dispatch d ctx "" = (ctx, false) := by
  have hwf := hd.wf
  have hin : Input.new "" = ([] : Input) := rfl
  obtain ⟨n, hn⟩ : ∃ n, d.nodes.length = n + 1 :=
    ⟨d.nodes.length - 1, by have := hwf.nodesNonempty; omega⟩
  have hloop : dispatchLoop d ctx d.nodes.length d.root (Input.new "")
      = LoopResult.finished d.root := by
    rw [hin, hn]
    simp [dispatchLoop]
  refine ⟨hloop, ?_⟩
  unfold dispatch
  rw [hloop]
  have hre : (d.nodeAt d.root).exec = none := by
    rw [hwf.rootKey]
    exact hwf.rootExec
  show (match (d.nodeAt d.root).exec with
    | some hh => (hh ctx "", true)
    | none => (ctx, false)) = (ctx, false)
  rw [hre]

/-- C9 witness: the empty dispatch on the fresh dispatcher. -/
theorem claim9_dispatch_empty_string_witness :
    dispatchLoop (new Log) [] (new Log).nodes.length (new Log).root (Input.new "")
      = LoopResult.finished (new Log).root ∧
    dispatch (new Log) [] "" = (([] : Log), false) :=
  claim9_dispatch_empty_string (new Log) Reachable.base []

/-- C10: In every reachable dispatcher state the arena is a tree rooted at
`Root` — every child key exceeds its parent's key and stays in bounds
(acyclicity), every node has at most one parent, and every non-root node
has a parent — and consequently dispatch terminates for every context and
input text: the loop, given its `nodes.length` step budget, never
exhausts it.  (Checkers are total functions in this model, matching the
claim's assumption that every `satisfies` call terminates.) -/
theorem claim10_tree_and_termination {C : Type} (d : CommandDispatcher C)
    (hd : Reachable C d) :
    (∀ i, ∀ j ∈ (d.nodeAt i).next, i < j ∧ j < d.nodes.length) ∧
    (∀ i₁ i₂ j, j ∈ (d.nodeAt i₁).next → j ∈ (d.nodeAt i₂).next → i₁ = i₂) ∧
    (∀ j, 0 < j → j < d.nodes.length →
      ∃ i, i < d.nodes.length ∧ j ∈ (d.nodeAt i).next) ∧
    (∀ (ctx : C) (input : Input),
      dispatchLoop d ctx d.nodes.length d.root input ≠ LoopResult.fuelOut) := by
  have hwf := hd.wf
  refine ⟨hwf.childBounds, hwf.oneParent, hwf.hasParent, ?_⟩
  intro ctx input
  apply dispatchLoop_no_fuelOut d hwf ctx
  · rw [hwf.rootKey]
    exact hwf.nodesNonempty
  · exact Nat.sub_le _ _

/-- C10 witness: the dispatch loop on the tp-scenario dispatcher never
runs out of its step budget on a concrete input. -/
theorem claim10_tree_and_termination_witness :
    dispatchLoop tpClaimReg.1 [] tpClaimReg.1.nodes.length tpClaimReg.1.root
      (Input.new "tp Steve spawn") ≠ LoopResult.fuelOut :=
  (claim10_tree_and_termination tpClaimReg.1
    (Reachable.step _ tpHereCmd (Reachable.step _ tpArgsCmd Reachable.base))).2.2.2
    [] (Input.new "tp Steve spawn")

end Lieutenant
